import Mathlib

/-
Shallow embedding of src/PART1/konvu_part1_priority.py (the Konvu part-1
priority-scoring pipeline) and proofs about it.

Modelling conventions:
* Python floats are modelled as exact rationals (ℚ).  math.log1p is
  transcendental and not representable in ℚ, so it is abstracted as an
  arbitrary function `log1p : Nat → ℚ` carried in the environment; every
  theorem below is proved for all choices of that function, hence in
  particular for the real logarithm.
* The downloads cache (a JSON object on disk) is modelled as an ordered
  association list with Python-dict semantics (`mlookup` / `dinsert`).
* The network is modelled by an outcome oracle: for each package and each
  attempt index it yields HTTP 200 with a parsed body, HTTP 429, another
  non-success status, or a transport exception.  The thread pool of
  fetch_downloads_parallel gives each worker a disjoint key, and the joined
  dict does not depend on completion order, so the fan-out is modelled as a
  sequential fold over the cache misses.
* pandas sort_values uses kind=quicksort by default, which numpy and pandas
  document as NOT stable: equal-score rows may be permuted (numpy introsort
  switches from insertion sort to partitioning above 16 elements).  Every
  sort-order-dependent claim is therefore proved for all implementations of
  the sort - any function returning some descending-by-score permutation of
  its input (score_rows_with).  rowSortDesc, a stable insertion sort, is one
  such implementation; it is used only to evaluate concrete small runs,
  where it coincides with numpy's behaviour (introsort is insertion sort
  below the 16-element cutoff).  groupby("package", as_index=False) sorts
  the group keys ascending - keys are distinct, so that order is
  deterministic - and .first() takes the first row of each group (the data
  has no nulls, so "first non-null per column" is the first row).
* pandas value_counts orders distinct values by descending count; its tie
  order is not specified, and is modelled as first-seen order.  The order
  only selects which packages fall inside the download-lookup cap.
-/

-- ---------------------------------------------------------------------------
-- String helpers (str.upper / str.lower / substring containment "k in s")
-- ---------------------------------------------------------------------------

def upperStr (s : String) : String := ⟨s.data.map Char.toUpper⟩

def lowerStr (s : String) : String := ⟨s.data.map Char.toLower⟩

/-- The whitespace characters Python's str.strip removes from OSV severity
fields (ASCII whitespace; the fields this pipeline consumes are ASCII). -/
def isSpaceChar (c : Char) : Bool := c == ' ' || c == '\t' || c == '\n' || c == '\r'

/-- Python str.strip(): drop whitespace from both ends. -/
def trimStr (s : String) : String :=
  ⟨(((s.data.dropWhile isSpaceChar).reverse).dropWhile isSpaceChar).reverse⟩

/-- Does the first list occur at the head of the second one? -/
def leadMatch : List Char → List Char → Bool
  | [], _ => true
  | _ :: _, [] => false
  | a :: as, b :: bs => a == b && leadMatch as bs

/-- Python's `needle in hay` substring containment, on character lists. -/
def subMatch (needle : List Char) : List Char → Bool
  | [] => needle.isEmpty
  | b :: bs => leadMatch needle (b :: bs) || subMatch needle bs

-- ---------------------------------------------------------------------------
-- Python float(s) parsing, restricted to plain decimal literals.
-- Modelled: the exotic float syntaxes (exponents, "inf", "nan", underscores)
-- are not produced by the OSV severity fields this pipeline consumes; for
-- "nan"/"inf" Python's range check 0 <= v <= 10 fails anyway, so those forms
-- also fall through to the table branch in the source.
-- ---------------------------------------------------------------------------

def digitsToNat (ds : List Char) : Nat :=
  ds.foldl (fun n c => 10 * n + (c.toNat - 48)) 0

def parseRat? (s : String) : Option ℚ :=
  let p : List Char → Option ℚ := fun cs =>
    match cs.span Char.isDigit with
    | (intPart, []) =>
        if intPart.isEmpty then none else some ((digitsToNat intPart : ℚ))
    | (intPart, '.' :: fracPart) =>
        if fracPart.all Char.isDigit && (!intPart.isEmpty || !fracPart.isEmpty) then
          some ((digitsToNat intPart : ℚ) + (digitsToNat fracPart : ℚ) / (10 ^ fracPart.length))
        else none
    | _ => none
  match s.data with
  | '-' :: rest => (p rest).map (fun v => -v)
  | '+' :: rest => p rest
  | rest => p rest

-- ---------------------------------------------------------------------------
-- Static tables (module constants of the source)
-- ---------------------------------------------------------------------------

/-- severity textual -> CVSS approximations (0-10); dict insertion order. -/
def SEV_TO_CVSS : List (String × ℚ) :=
  [("LOW", 5/2), ("MODERATE", 11/2), ("MEDIUM", 11/2), ("HIGH", 8), ("CRITICAL", 19/2)]

/-- Weapon keyword weights (substring matching); dict insertion order. -/
def WEAP_KEYWORDS : List (String × ℚ) :=
  [("rce", 1),
   ("remote code execution", 1),
   ("command injection", 98/100),
   ("sql injection", 95/100),
   ("sqli", 95/100),
   ("code injection", 95/100),
   ("prototype pollution", 90/100),
   ("privilege escalation", 90/100),
   ("ssrf", 85/100),
   ("server side request forgery", 85/100),
   ("path traversal", 80/100),
   ("local file inclusion", 80/100),
   ("lfi", 80/100),
   ("xss", 60/100),
   ("cross-site scripting", 60/100),
   ("dom-based xss", 60/100),
   ("authentication bypass", 70/100),
   ("denial of service", 35/100),
   ("dos", 35/100),
   ("information disclosure", 30/100)]

/-- The `for k, vv in SEV_TO_CVSS.items(): if k in s_up: return vv` loop. -/
def findTableMatch (table : List (String × ℚ)) (sUp : String) : Option ℚ :=
  (table.find? (fun kv => subMatch kv.1.data sUp.data)).map (fun kv => kv.2)

/-- parse_severity_to_cvss from the source.  A missing severity field is the
empty string (Python's falsiness check `if not sev_field`). -/
def parse_severity_to_cvss (sev_field : String) : Option ℚ :=
  if sev_field = "" then none
  else
    let s := trimStr sev_field
    match parseRat? s with
    | some v => if 0 ≤ v ∧ v ≤ 10 then some v else findTableMatch SEV_TO_CVSS (upperStr s)
    | none => findTableMatch SEV_TO_CVSS (upperStr s)

def listMaxQ : List ℚ → ℚ
  | [] => 0
  | x :: xs => xs.foldl max x

def listMinQ : List ℚ → ℚ
  | [] => 0
  | x :: xs => xs.foldl min x

/-- compute_weapon_score from the source: collect the weights of all matched
keywords and return min(1.0, max(matched)), 0.0 when nothing matches. -/
def compute_weapon_score (text : String) : ℚ :=
  if text = "" then 0
  else
    let t := lowerStr text
    let matched := (WEAP_KEYWORDS.filter (fun kw => subMatch kw.1.data t.data)).map (fun kw => kw.2)
    if matched.isEmpty then 0 else min 1 (listMaxQ matched)

-- ---------------------------------------------------------------------------
-- Stable insertion sort.  sortSt af l keeps x before y whenever x was before
-- y in l and af x y = false; af x y = true means "x must go after y".
-- ---------------------------------------------------------------------------

def insertSt (af : α → α → Bool) (x : α) : List α → List α
  | [] => [x]
  | y :: ys => if af x y then y :: insertSt af x ys else x :: y :: ys

def sortSt (af : α → α → Bool) : List α → List α
  | [] => []
  | x :: xs => insertSt af x (sortSt af xs)

/-- Lexicographic strict order on character lists (the order Python uses to
compare the strings pandas sorts group keys by). -/
def charListLt : List Char → List Char → Bool
  | [], [] => false
  | [], _ :: _ => true
  | _ :: _, [] => false
  | a :: as, b :: bs => if a < b then true else if b < a then false else charListLt as bs

/-- Insertion predicate for the ascending group-key sort: a goes after b
exactly when b is strictly smaller. -/
def strAfter (a b : String) : Bool := charListLt b.data a.data

-- ---------------------------------------------------------------------------
-- value_counts index order: distinct values, by descending count, first-seen
-- order among ties (see header note).
-- ---------------------------------------------------------------------------

def firstSeenDistinct : List String → List String
  | [] => []
  | x :: xs => x :: (firstSeenDistinct xs).filter (fun y => y != x)

def countOf (l : List String) (p : String) : Nat := (l.filter (fun q => q == p)).length

def valueCountsIndex (l : List String) : List String :=
  sortSt (fun a b => decide (countOf l a < countOf l b)) (firstSeenDistinct l)

-- ---------------------------------------------------------------------------
-- Python dict with string keys and Nat values (the downloads cache).
-- ---------------------------------------------------------------------------

def mlookup (m : List (String × Nat)) (k : String) : Option Nat :=
  (m.find? (fun kv => kv.1 == k)).map (fun kv => kv.2)

/-- Python dict assignment cache[k] = v: overwrite in place when the key is
present, append otherwise (dicts preserve insertion order). -/
def dinsert (m : List (String × Nat)) (k : String) (v : Nat) : List (String × Nat) :=
  if (m.find? (fun kv => kv.1 == k)).isSome then
    m.map (fun kv => if kv.1 == k then (k, v) else kv)
  else m ++ [(k, v)]

-- ---------------------------------------------------------------------------
-- Download fetching: config constants, retry loop, parallel fan-out.
-- ---------------------------------------------------------------------------

def MAX_RETRIES : Nat := 2

def BACKOFF_BASE : ℚ := 3/2

def DOWNLOAD_LOOKUP_LIMIT : Nat := 200

/-- One attempt of requests.get, abstracted: HTTP 200 with a parsed downloads
count, HTTP 429, any other status, or a transport-level exception (timeout,
connection error, body-parse error - everything the bare except catches). -/
inductive FetchOutcome where
  | success (downloads : Nat)
  | rateLimited
  | otherStatus
  | transportExc
deriving DecidableEq

def isRetryableB : FetchOutcome → Bool
  | .rateLimited => true
  | .transportExc => true
  | _ => false

/-- The sleep performed before retrying after a given outcome at a given
attempt index: (BACKOFF_BASE ** attempt) * 0.5 after a 429 and
(BACKOFF_BASE ** attempt) * 0.3 after an exception. -/
def retrySleep : FetchOutcome → Nat → ℚ
  | .rateLimited, attempt => BACKOFF_BASE ^ attempt * (1/2)
  | _, attempt => BACKOFF_BASE ^ attempt * (3/10)

/-- The `while attempt <= MAX_RETRIES` loop of fetch_download_count_once,
with the remaining iteration budget as fuel.  Returns (value, number of
attempts made, sleeps performed in order). -/
def fetchLoop (oc : Nat → FetchOutcome) : Nat → Nat → Nat × Nat × List ℚ
  | attempt, 0 => (0, attempt, [])
  | attempt, fuel + 1 =>
    match oc attempt with
    | .success d => (d, attempt + 1, [])
    | .rateLimited =>
        let r := fetchLoop oc (attempt + 1) fuel
        (r.1, r.2.1, (BACKOFF_BASE ^ attempt * (1/2)) :: r.2.2)
    | .otherStatus => (0, attempt + 1, [])
    | .transportExc =>
        let r := fetchLoop oc (attempt + 1) fuel
        (r.1, r.2.1, (BACKOFF_BASE ^ attempt * (3/10)) :: r.2.2)

def fetch_download_count_once (oc : Nat → FetchOutcome) : Nat × Nat × List ℚ :=
  fetchLoop oc 0 (MAX_RETRIES + 1)

/-- `if len(pkgs) > limit: pkgs = pkgs[:limit]`. -/
def truncOf (pkgs : List String) (limit : Nat) : List String :=
  if pkgs.length > limit then pkgs.take limit else pkgs

/-- fetch_downloads_parallel, in explicit state-passing form: it takes the
loaded cache and the network oracle and returns (the mapping the function
returns, the cache as persisted on return, the list of packages actually
dispatched to workers).  Per the header note the fan-out over disjoint keys
is modelled as a sequential fold. -/
def fetch_downloads_parallel (pkgs : List String) (cache : List (String × Nat))
    (oc : String → Nat → FetchOutcome) (limit : Nat) :
    List (String × Nat) × List (String × Nat) × List String :=
  let pkgs' := truncOf pkgs limit
  let to_fetch := pkgs'.filter (fun p => (mlookup cache p).isNone)
  if to_fetch.isEmpty then
    (pkgs'.map (fun p => (p, (mlookup cache p).getD 0)), cache, [])
  else
    let newCache := to_fetch.foldl
      (fun c p => dinsert c p (fetch_download_count_once (oc p)).1) cache
    (pkgs'.map (fun p => (p, (mlookup newCache p).getD 0)), newCache, to_fetch)

-- ---------------------------------------------------------------------------
-- Min-max scaling and median
-- ---------------------------------------------------------------------------

/-- sklearn MinMaxScaler on one column value: (x - min) / (max - min), where a
zero denominator is replaced by 1 (sklearn's handle-zeros-in-scale), so a
constant column maps to 0. -/
def minmaxOne (xs : List ℚ) (x : ℚ) : ℚ :=
  (x - listMinQ xs) / (if listMaxQ xs = listMinQ xs then 1 else listMaxQ xs - listMinQ xs)

def sortAscQ (l : List ℚ) : List ℚ := sortSt (fun a b => decide (b < a)) l

/-- np.nanmedian restricted to the non-NaN entries (the caller passes exactly
those): sort ascending, middle element for odd length, mean of the two middle
elements for even length.  Only ever used on non-empty lists. -/
def nanmedian (l : List ℚ) : ℚ :=
  let s := sortAscQ l
  let n := s.length
  if n % 2 = 1 then s.getD (n / 2) 0
  else (s.getD (n / 2 - 1) 0 + s.getD (n / 2) 0) / 2

-- ---------------------------------------------------------------------------
-- Records and the pipeline environment
-- ---------------------------------------------------------------------------

/-- One CSV row as produced by extract_osv.py (all fields present; a missing
value is the empty string). -/
structure Record where
  package : String
  type : String
  cwe : String
  severity : String
  published : String
  summary : String
deriving DecidableEq

/-- The configuration and ambient state score_rows runs against: the weights
passed in, the FETCH_DOWNLOADS flag, the on-disk cache contents, the network
oracle, DOWNLOAD_LOOKUP_LIMIT, and the abstracted math.log1p. -/
structure Env where
  w_sev : ℚ
  w_exploit : ℚ
  w_exposure : ℚ
  fetch_downloads : Bool
  cache : List (String × Nat)
  outcomes : String → Nat → FetchOutcome
  limit : Nat
  log1p : Nat → ℚ

/-- ghsa_rows = [r for r in rows if r.get("type","").upper() == "GHSA"]. -/
def ghsaOf (rows : List Record) : List Record :=
  rows.filter (fun r => upperStr r.type == "GHSA")

/-- median_cvss: np.nanmedian of the resolved severities when at least one
row resolved, else 5.5.  Computed once per batch. -/
def batchMedian (rows : List Record) : ℚ :=
  let resolved := (ghsaOf rows).filterMap (fun r => parse_severity_to_cvss r.severity)
  if resolved.isEmpty then 11/2 else nanmedian resolved

/-- pkgs = list(df["package"].value_counts().index). -/
def pkgsOf (rows : List Record) : List String :=
  valueCountsIndex ((ghsaOf rows).map (fun r => r.package))

/-- downloads_map: all zeros unless FETCH_DOWNLOADS is set and there are
packages, in which case the whole map is replaced by the fetch result. -/
def downloadsMapOf (env : Env) (rows : List Record) : List (String × Nat) :=
  let pkgs := pkgsOf rows
  if env.fetch_downloads && !pkgs.isEmpty then
    (fetch_downloads_parallel pkgs env.cache env.outcomes env.limit).1
  else pkgs.map (fun p => (p, 0))

/-- df["cvss"]: the parsed severity, back-filled with the batch median. -/
def cvssOf (rows : List Record) (r : Record) : ℚ :=
  (parse_severity_to_cvss r.severity).getD (batchMedian rows)

/-- df["downloads"]: .map(downloads_map).fillna(0). -/
def dlOf (env : Env) (rows : List Record) (r : Record) : Nat :=
  (mlookup (downloadsMapOf env rows) r.package).getD 0

/-- df["downloads_log"] = log1p(downloads). -/
def dlogOf (env : Env) (rows : List Record) (r : Record) : ℚ :=
  env.log1p (dlOf env rows r)

def cvssCol (rows : List Record) : List ℚ :=
  (ghsaOf rows).map (cvssOf rows)

def weapCol (rows : List Record) : List ℚ :=
  (ghsaOf rows).map (fun r => compute_weapon_score r.summary)

def dlogCol (env : Env) (rows : List Record) : List ℚ :=
  (ghsaOf rows).map (dlogOf env rows)

/-- One scored row of df (and of the aggregated output). -/
structure ScoredRow where
  package : String
  severity : String
  summary : String
  cvss : ℚ
  weap_score : ℚ
  downloads : Nat
  downloads_log : ℚ
  sev_norm : ℚ
  weap_norm : ℚ
  exp_norm : ℚ
  score : ℚ
deriving DecidableEq

def mkScored (env : Env) (rows : List Record) (r : Record) : ScoredRow :=
  let sev_norm := minmaxOne (cvssCol rows) (cvssOf rows r)
  let weap_norm := minmaxOne (weapCol rows) (compute_weapon_score r.summary)
  let exp_norm := minmaxOne (dlogCol env rows) (dlogOf env rows r)
  { package := r.package
    severity := r.severity
    summary := r.summary
    cvss := cvssOf rows r
    weap_score := compute_weapon_score r.summary
    downloads := dlOf env rows r
    downloads_log := dlogOf env rows r
    sev_norm := sev_norm
    weap_norm := weap_norm
    exp_norm := exp_norm
    score := env.w_sev * sev_norm + env.w_exploit * weap_norm + env.w_exposure * exp_norm }

/-- The scored DataFrame df (one row per GHSA input record, in input order),
just before the aggregation step. -/
def score_rows_df (env : Env) (rows : List Record) : List ScoredRow :=
  (ghsaOf rows).map (mkScored env rows)

def rowAfter (a b : ScoredRow) : Bool := decide (a.score < b.score)

/-- One concrete implementation of sort_values("score", ascending=False):
an insertion sort moving a row after another exactly when its score is
strictly smaller.  The real kind=quicksort is documented unstable, so no
ordering claim relies on which descending sort this is (see header note and
score_rows_with); rowSortDesc only serves to evaluate concrete small runs,
on which numpy's introsort is the same insertion sort. -/
def rowSortDesc (l : List ScoredRow) : List ScoredRow := sortSt rowAfter l

/-- groupby("package", as_index=False).first(): group keys are the distinct
package values sorted ascending; each group contributes its first row in the
incoming (already score-sorted) order. -/
def groupbyFirst (l : List ScoredRow) : List ScoredRow :=
  (sortSt strAfter (firstSeenDistinct (l.map (fun r => r.package)))).filterMap
    (fun p => l.find? (fun r => r.package == p))

/-- score_rows: empty output on an empty GHSA batch, otherwise sort by score
descending, deduplicate per package keeping the first (best) row, and sort
the aggregate by score descending again. -/
def score_rows (env : Env) (rows : List Record) : List ScoredRow :=
  if (ghsaOf rows).isEmpty then []
  else rowSortDesc (groupbyFirst (rowSortDesc (score_rows_df env rows)))

/-- score_rows with the score sort left as a parameter: pandas' default
quicksort is documented non-stable, so the permutation it applies to
equal-score rows is implementation-defined.  Ordering claims quantify over
every sort implementation s that returns a descending-by-score permutation
of its input; score_rows itself is score_rows_with rowSortDesc. -/
def score_rows_with (s : List ScoredRow → List ScoredRow) (env : Env) (rows : List Record) :
    List ScoredRow :=
  if (ghsaOf rows).isEmpty then []
  else s (groupbyFirst (s (score_rows_df env rows)))

-- ---------------------------------------------------------------------------
-- Claim-side comparison definitions (used to state C1 against the code)
-- ---------------------------------------------------------------------------

/-- Claim-side description (C1, deduplication): per distinct package keep the
highest-scoring row, ties broken by the order the aggregation receives them
in - i.e. the first row of the group whose score no group member exceeds. -/
def bestRow (df : List ScoredRow) (p : String) : Option ScoredRow :=
  let g := df.filter (fun d => d.package == p)
  g.find? (fun d => g.all (fun e => decide (e.score ≤ d.score)))

/-- Claim-side description (C1, ordering): one row per distinct package in
first-seen order, then a stable descending sort by score.  This is the output
sequence the words "sorted descending by score with a stable tie-break
preserving first-seen order among equal scores" describe. -/
def claimOutput (df : List ScoredRow) : List ScoredRow :=
  rowSortDesc ((firstSeenDistinct (df.map (fun r => r.package))).filterMap (fun p => bestRow df p))

-- ---------------------------------------------------------------------------
-- Weight normalization (prologue of main)
-- ---------------------------------------------------------------------------

def W_SEV : ℚ := 3/5

def W_EXPLOIT : ℚ := 3/10

def W_EXPOSURE : ℚ := 1/10

/-- math.isclose with its default rel_tol=1e-09, abs_tol=0.0. -/
def iscloseB (a b : ℚ) : Bool := decide (|a - b| ≤ 1/1000000000 * max |a| |b|)

/-- The weight-normalization prologue of main(): divide by the total unless
the total is already close to 1. -/
def normalize_weights (ws we wx : ℚ) : ℚ × ℚ × ℚ :=
  let total := ws + we + wx
  if !iscloseB total 1 then (ws / total, we / total, wx / total)
  else (ws, we, wx)

/-- The weight-normalization prologue of main() with its failure point made
explicit: when the configured weights do not already sum close to 1, Python
evaluates W_SEV / total, which raises ZeroDivisionError when the total is
zero.  ℚ-division by zero silently yields 0, so the hazard must be an
explicit error branch. -/
def normalize_weights_e (ws we wx : ℚ) : Except String (ℚ × ℚ × ℚ) :=
  let total := ws + we + wx
  if !iscloseB total 1 then
    if total = 0 then .error "ZeroDivisionError: float division by zero"
    else .ok (ws / total, we / total, wx / total)
  else .ok (ws, we, wx)

-- ---------------------------------------------------------------------------
-- Raw dict rows and the exception-instrumented pipeline entry (for C9)
-- ---------------------------------------------------------------------------

abbrev RawRecord := List (String × String)

def rget (r : RawRecord) (k : String) : Option String :=
  (r.find? (fun kv => kv.1 == k)).map (fun kv => kv.2)

def toRecord (r : RawRecord) : Record :=
  { package := (rget r "package").getD ""
    type := (rget r "type").getD ""
    cwe := (rget r "cwe").getD ""
    severity := (rget r "severity").getD ""
    published := (rget r "published").getD ""
    summary := (rget r "summary").getD "" }

def isOkE : Except String (List ScoredRow) → Bool
  | .ok _ => true
  | .error _ => false

/-- score_rows over raw dict rows, with the failure points that exist when
records may lack columns made explicit.  A pandas DataFrame built from dicts
has a column iff some record carries the key, so with at least one GHSA row:
df.get("summary","").fillna("") raises AttributeError when the summary column
is absent (the default "" is a plain str), and df["severity"] / df["package"]
raise KeyError when those columns are absent.  Every later step of the source
is total: the batch-median guard handles the all-unparseable severity case,
the MinMax scaler handles zero variance, and .map(...).fillna(0) handles
packages missing from downloads_map, exactly as embedded in score_rows.
This models score_rows itself (source lines 183-219); main's
weight-normalization prologue and its ZeroDivisionError hazard live in
normalize_weights_e and main_e below. -/
def score_rows_e (env : Env) (rows : List RawRecord) : Except String (List ScoredRow) :=
  let ghsa := rows.filter (fun r => upperStr ((rget r "type").getD "") == "GHSA")
  if ghsa.isEmpty then .ok []
  else if ghsa.all (fun r => (rget r "summary").isNone) then
    .error "AttributeError: str object has no attribute fillna"
  else if ghsa.all (fun r => (rget r "severity").isNone) then
    .error "KeyError: severity"
  else if ghsa.all (fun r => (rget r "package").isNone) then
    .error "KeyError: package"
  else .ok (score_rows env (rows.map toRecord))

/-- main (source lines 275-286): normalize the configured weights - with the
division-by-zero hazard explicit - then run the scoring pipeline over the
rows read from the CSV.  The environment's weight fields are replaced by the
normalized weights exactly as main passes them to score_rows. -/
def main_e (ws we wx : ℚ) (env : Env) (rows : List RawRecord) :
    Except String (List ScoredRow) :=
  match normalize_weights_e ws we wx with
  | .error e => .error e
  | .ok w => score_rows_e
      { env with w_sev := w.1, w_exploit := w.2.1, w_exposure := w.2.2 } rows

-- ---------------------------------------------------------------------------
-- Concrete fixtures used by witnesses and counterexamples
-- ---------------------------------------------------------------------------

def envW : Env :=
  { w_sev := W_SEV, w_exploit := W_EXPLOIT, w_exposure := W_EXPOSURE,
    fetch_downloads := false, cache := [], outcomes := fun _ _ => .otherStatus,
    limit := DOWNLOAD_LOOKUP_LIMIT, log1p := fun _ => 0 }

def recB : Record :=
  { package := "b", type := "GHSA", cwe := "", severity := "HIGH",
    published := "2025-01-01", summary := "" }

def recA : Record :=
  { package := "a", type := "GHSA", cwe := "", severity := "HIGH",
    published := "2025-01-02", summary := "" }

def rows_c1 : List Record := [recB, recA]

def recW : Record :=
  { package := "left-pad", type := "GHSA", cwe := "", severity := "HIGH",
    published := "2025-01-01", summary := "remote code execution via crafted input" }

def rows_w : List Record := [recW]

def recBad : Record :=
  { package := "p", type := "GHSA", cwe := "", severity := "garbage",
    published := "", summary := "" }

def rows_c10 : List Record := [recBad]

def raw_w : RawRecord :=
  [("package", "left-pad"), ("type", "GHSA"), ("cwe", ""), ("severity", "HIGH"),
   ("published", "2025-01-01"), ("summary", "remote code execution")]

/-- The scored row the pipeline produces for recB in the C1 counterexample
batch: severity HIGH parses to 8, the empty summary scores 0, downloads are
0 with fetching disabled, and all three axes are constant so every
normalized value and the composite score is 0. -/
def rowB0 : ScoredRow :=
  { package := "b", severity := "HIGH", summary := "", cvss := 8, weap_score := 0,
    downloads := 0, downloads_log := 0, sev_norm := 0, weap_norm := 0, exp_norm := 0,
    score := 0 }

/-- The scored row for recA in the C1 counterexample batch. -/
def rowA0 : ScoredRow :=
  { package := "a", severity := "HIGH", summary := "", cvss := 8, weap_score := 0,
    downloads := 0, downloads_log := 0, sev_norm := 0, weap_norm := 0, exp_norm := 0,
    score := 0 }

-- ---------------------------------------------------------------------------
-- Lemmas: stable insertion sort
-- ---------------------------------------------------------------------------

theorem insertSt_perm (af : α → α → Bool) (x : α) (l : List α) :
    List.Perm (insertSt af x l) (x :: l) := by
  induction l with
  | nil => exact List.Perm.refl _
  | cons y ys ih =>
    simp only [insertSt]
    split
    · exact (ih.cons y).trans (List.Perm.swap x y ys)
    · exact List.Perm.refl _

theorem sortSt_perm (af : α → α → Bool) (l : List α) : List.Perm (sortSt af l) l := by
  induction l with
  | nil => exact List.Perm.refl _
  | cons x xs ih => exact (insertSt_perm af x (sortSt af xs)).trans (ih.cons x)

theorem mem_sortSt {af : α → α → Bool} {l : List α} {a : α} :
    a ∈ sortSt af l ↔ a ∈ l := (sortSt_perm af l).mem_iff

theorem sorted_insertSt (af : α → α → Bool)
    (hasym : ∀ a b, af a b = true → af b a = false)
    (hneg : ∀ a b c, af a b = false → af b c = false → af a c = false)
    (x : α) {l : List α} (hl : l.Pairwise (fun a b => af a b = false)) :
    (insertSt af x l).Pairwise (fun a b => af a b = false) := by
  induction l with
  | nil => simp [insertSt]
  | cons y ys ih =>
    rw [List.pairwise_cons] at hl
    simp only [insertSt]
    split
    case isTrue h =>
      refine List.pairwise_cons.mpr ⟨?_, ih hl.2⟩
      intro z hz
      rcases List.mem_cons.mp ((insertSt_perm af x ys).mem_iff.mp hz) with hzx | hz'
      · rw [hzx]; exact hasym x y h
      · exact hl.1 z hz'
    case isFalse h =>
      have hb : af x y = false := by
        cases hxy : af x y with
        | true => exact absurd hxy h
        | false => rfl
      refine List.pairwise_cons.mpr ⟨?_, List.pairwise_cons.mpr hl⟩
      intro z hz
      rcases List.mem_cons.mp hz with rfl | hz'
      · exact hb
      · exact hneg x y z hb (hl.1 z hz')

theorem sorted_sortSt (af : α → α → Bool)
    (hasym : ∀ a b, af a b = true → af b a = false)
    (hneg : ∀ a b c, af a b = false → af b c = false → af a c = false)
    (l : List α) : (sortSt af l).Pairwise (fun a b => af a b = false) := by
  induction l with
  | nil => simp [sortSt]
  | cons x xs ih => exact sorted_insertSt af hasym hneg x ih

-- ---------------------------------------------------------------------------
-- Lemmas: find?
-- ---------------------------------------------------------------------------

theorem find?_split {q : α → Bool} {l : List α} {a : α} (h : l.find? q = some a) :
    ∃ u w, l = u ++ a :: w ∧ ∀ b ∈ u, q b = false := by
  induction l with
  | nil => simp [List.find?] at h
  | cons x xs ih =>
    cases hx : q x with
    | true =>
      rw [List.find?_cons_of_pos _ hx] at h
      cases h
      exact ⟨[], xs, rfl, by simp⟩
    | false =>
      rw [List.find?_cons_of_neg _ (by simp [hx])] at h
      obtain ⟨u, w, hl, hu⟩ := ih h
      refine ⟨x :: u, w, by rw [hl]; rfl, ?_⟩
      intro b hb
      rcases List.mem_cons.mp hb with rfl | hb'
      · exact hx
      · exact hu b hb'

-- ---------------------------------------------------------------------------
-- Lemmas: firstSeenDistinct
-- ---------------------------------------------------------------------------

theorem mem_firstSeenDistinct {l : List String} {p : String} :
    p ∈ firstSeenDistinct l ↔ p ∈ l := by
  induction l with
  | nil => simp [firstSeenDistinct]
  | cons x xs ih =>
    simp only [firstSeenDistinct, List.mem_cons]
    constructor
    · rintro (rfl | hp)
      · exact Or.inl rfl
      · exact Or.inr (ih.mp (List.mem_of_mem_filter hp))
    · rintro (rfl | hp)
      · exact Or.inl rfl
      · by_cases hpx : p = x
        · exact Or.inl hpx
        · exact Or.inr (List.mem_filter.mpr ⟨ih.mpr hp, by simp [bne_iff_ne, hpx]⟩)

theorem nodup_firstSeenDistinct (l : List String) : (firstSeenDistinct l).Nodup := by
  induction l with
  | nil => simp [firstSeenDistinct]
  | cons x xs ih =>
    simp only [firstSeenDistinct]
    refine List.nodup_cons.mpr ⟨?_, ih.filter _⟩
    intro hx
    have := (List.mem_filter.mp hx).2
    simp at this

-- ---------------------------------------------------------------------------
-- Lemmas: listMinQ / listMaxQ / minmaxOne
-- ---------------------------------------------------------------------------

theorem foldl_min_le_init (l : List ℚ) : ∀ a : ℚ, l.foldl min a ≤ a := by
  induction l with
  | nil => intro a; simp
  | cons y ys ih =>
    intro a
    simp only [List.foldl_cons]
    exact le_trans (ih (min a y)) (min_le_left a y)

theorem foldl_min_le_mem {l : List ℚ} {x : ℚ} (h : x ∈ l) :
    ∀ a : ℚ, l.foldl min a ≤ x := by
  induction l with
  | nil => cases h
  | cons y ys ih =>
    intro a
    simp only [List.foldl_cons]
    rcases List.mem_cons.mp h with rfl | hx
    · exact le_trans (foldl_min_le_init ys (min a x)) (min_le_right a x)
    · exact ih hx (min a y)

theorem listMinQ_le_mem {l : List ℚ} {x : ℚ} (h : x ∈ l) : listMinQ l ≤ x := by
  cases l with
  | nil => cases h
  | cons y ys =>
    rcases List.mem_cons.mp h with rfl | hx
    · exact foldl_min_le_init ys x
    · exact foldl_min_le_mem hx y

theorem init_le_foldl_max (l : List ℚ) : ∀ a : ℚ, a ≤ l.foldl max a := by
  induction l with
  | nil => intro a; simp
  | cons y ys ih =>
    intro a
    simp only [List.foldl_cons]
    exact le_trans (le_max_left a y) (ih (max a y))

theorem mem_le_foldl_max {l : List ℚ} {x : ℚ} (h : x ∈ l) :
    ∀ a : ℚ, x ≤ l.foldl max a := by
  induction l with
  | nil => cases h
  | cons y ys ih =>
    intro a
    simp only [List.foldl_cons]
    rcases List.mem_cons.mp h with rfl | hx
    · exact le_trans (le_max_right a x) (init_le_foldl_max ys (max a x))
    · exact ih hx (max a y)

theorem mem_le_listMaxQ {l : List ℚ} {x : ℚ} (h : x ∈ l) : x ≤ listMaxQ l := by
  cases l with
  | nil => cases h
  | cons y ys =>
    rcases List.mem_cons.mp h with rfl | hx
    · exact init_le_foldl_max ys x
    · exact mem_le_foldl_max hx y

theorem foldl_min_mem (l : List ℚ) : ∀ a : ℚ, l.foldl min a = a ∨ l.foldl min a ∈ l := by
  induction l with
  | nil => intro a; exact Or.inl rfl
  | cons y ys ih =>
    intro a
    simp only [List.foldl_cons]
    rcases ih (min a y) with h | h
    · rcases min_choice a y with hm | hm
      · exact Or.inl (h.trans hm)
      · rw [h, hm]; exact Or.inr (List.mem_cons_self y ys)
    · exact Or.inr (List.mem_cons_of_mem y h)

theorem listMinQ_mem {l : List ℚ} (h : l ≠ []) : listMinQ l ∈ l := by
  cases l with
  | nil => exact absurd rfl h
  | cons y ys =>
    rcases foldl_min_mem ys y with hm | hm
    · rw [listMinQ, hm]; exact List.mem_cons_self y ys
    · exact List.mem_cons_of_mem y hm

theorem foldl_max_mem (l : List ℚ) : ∀ a : ℚ, l.foldl max a = a ∨ l.foldl max a ∈ l := by
  induction l with
  | nil => intro a; exact Or.inl rfl
  | cons y ys ih =>
    intro a
    simp only [List.foldl_cons]
    rcases ih (max a y) with h | h
    · rcases max_choice a y with hm | hm
      · exact Or.inl (h.trans hm)
      · rw [h, hm]; exact Or.inr (List.mem_cons_self y ys)
    · exact Or.inr (List.mem_cons_of_mem y h)

theorem listMaxQ_mem {l : List ℚ} (h : l ≠ []) : listMaxQ l ∈ l := by
  cases l with
  | nil => exact absurd rfl h
  | cons y ys =>
    rcases foldl_max_mem ys y with hm | hm
    · rw [listMaxQ, hm]; exact List.mem_cons_self y ys
    · exact List.mem_cons_of_mem y hm

theorem minmaxOne_nonneg {l : List ℚ} {x : ℚ} (h : x ∈ l) : 0 ≤ minmaxOne l x := by
  have h1 := listMinQ_le_mem h
  have h2 := mem_le_listMaxQ h
  unfold minmaxOne
  split
  case isTrue heq =>
    have hx : x = listMinQ l := le_antisymm (heq ▸ h2) h1
    simp [hx]
  case isFalse hne =>
    have hlt : listMinQ l < listMaxQ l := lt_of_le_of_ne (le_trans h1 h2) (Ne.symm hne)
    exact div_nonneg (by linarith) (by linarith)

theorem minmaxOne_le_one {l : List ℚ} {x : ℚ} (h : x ∈ l) : minmaxOne l x ≤ 1 := by
  have h1 := listMinQ_le_mem h
  have h2 := mem_le_listMaxQ h
  unfold minmaxOne
  split
  case isTrue heq =>
    have hx : x = listMinQ l := le_antisymm (heq ▸ h2) h1
    simp [hx]
  case isFalse hne =>
    have hlt : listMinQ l < listMaxQ l := lt_of_le_of_ne (le_trans h1 h2) (Ne.symm hne)
    rw [div_le_one (by linarith)]
    linarith

theorem minmaxOne_const_zero {l : List ℚ} {x : ℚ} (h : x ∈ l)
    (hc : ∀ a ∈ l, ∀ b ∈ l, a = b) : minmaxOne l x = 0 := by
  have hne : l ≠ [] := by intro hnil; rw [hnil] at h; cases h
  have hmax : listMaxQ l = listMinQ l := hc _ (listMaxQ_mem hne) _ (listMinQ_mem hne)
  have hx : x = listMinQ l := hc _ h _ (listMinQ_mem hne)
  simp [minmaxOne, hmax, hx]

-- ---------------------------------------------------------------------------
-- Lemmas: dict (mlookup / dinsert / foldl of dinsert)
-- ---------------------------------------------------------------------------

theorem find?_append_none {q : α → Bool} {l₁ : List α} (h : l₁.find? q = none) (l₂ : List α) :
    (l₁ ++ l₂).find? q = l₂.find? q := by
  induction l₁ with
  | nil => rfl
  | cons x xs ih =>
    cases hx : q x with
    | true => rw [List.find?_cons_of_pos _ hx] at h; cases h
    | false =>
      rw [List.find?_cons_of_neg _ (by simp [hx])] at h
      simp only [List.cons_append]
      rw [List.find?_cons_of_neg _ (by simp [hx])]
      exact ih h

theorem find?_append_some {q : α → Bool} {l₁ : List α} {a : α} (h : l₁.find? q = some a)
    (l₂ : List α) : (l₁ ++ l₂).find? q = some a := by
  induction l₁ with
  | nil => cases h
  | cons x xs ih =>
    cases hx : q x with
    | true =>
      rw [List.find?_cons_of_pos _ hx] at h
      simp only [List.cons_append]
      rw [List.find?_cons_of_pos _ hx]
      exact h
    | false =>
      rw [List.find?_cons_of_neg _ (by simp [hx])] at h
      simp only [List.cons_append]
      rw [List.find?_cons_of_neg _ (by simp [hx])]
      exact ih h

theorem mlookup_map_overwrite (m : List (String × Nat)) (k : String) (v : Nat) :
    (m.find? (fun kv => kv.1 == k)).isSome →
    mlookup (m.map (fun kv => if kv.1 == k then (k, v) else kv)) k = some v := by
  induction m with
  | nil => intro h; simp [List.find?] at h
  | cons kv rest ih =>
    intro h
    cases hk : (kv.1 == k) with
    | true =>
      rw [List.map_cons, if_pos hk]
      unfold mlookup
      rw [List.find?_cons_of_pos _ (by simp)]
      rfl
    | false =>
      have h' : (rest.find? (fun kv => kv.1 == k)).isSome := by
        rw [List.find?_cons_of_neg _ (by simp [hk])] at h
        exact h
      rw [List.map_cons, if_neg (by simp [hk])]
      unfold mlookup at ih ⊢
      rw [List.find?_cons_of_neg _ (by simp [hk])]
      exact ih h'

theorem mlookup_dinsert_self (m : List (String × Nat)) (k : String) (v : Nat) :
    mlookup (dinsert m k v) k = some v := by
  unfold dinsert
  split
  case isTrue h => exact mlookup_map_overwrite m k v h
  case isFalse h =>
    have hn : m.find? (fun kv => kv.1 == k) = none := by
      cases hf : m.find? (fun kv => kv.1 == k) with
      | none => rfl
      | some a => rw [hf] at h; simp at h
    unfold mlookup
    rw [find?_append_none hn]
    rw [List.find?_cons_of_pos _ (by simp)]
    rfl

theorem mlookup_dinsert_other (m : List (String × Nat)) (k : String) (v : Nat) (k' : String)
    (hne : k' ≠ k) : mlookup (dinsert m k v) k' = mlookup m k' := by
  unfold dinsert
  split
  case isTrue h =>
    clear h
    induction m with
    | nil => rfl
    | cons kv rest ih =>
      cases hk : (kv.1 == k) with
      | true =>
        have hkv : kv.1 = k := by simpa using hk
        rw [List.map_cons, if_pos hk]
        unfold mlookup
        rw [List.find?_cons_of_neg _ (by simp; exact fun hh => hne hh.symm),
          List.find?_cons_of_neg _ (by simp [hkv]; exact fun hh => hne hh.symm)]
        exact ih
      | false =>
        rw [List.map_cons, if_neg (by simp [hk])]
        unfold mlookup at ih ⊢
        cases hk' : (kv.1 == k') with
        | true => simp only [List.find?, hk']
        | false =>
          simp only [List.find?, hk']
          exact ih
  case isFalse h =>
    unfold mlookup
    cases hf : m.find? (fun kv => kv.1 == k') with
    | some a => rw [find?_append_some hf]
    | none =>
      rw [find?_append_none hf]
      rw [List.find?_cons_of_neg _ (by simp; exact fun hh => hne hh.symm)]
      rfl

theorem mlookup_foldl_dinsert_of_ne (f : String → Nat) (p : String) :
    ∀ l : List String, (∀ q ∈ l, q ≠ p) →
      ∀ cache, mlookup (l.foldl (fun c q => dinsert c q (f q)) cache) p = mlookup cache p := by
  intro l
  induction l with
  | nil => intro _ cache; rfl
  | cons q qs ih =>
    intro hp cache
    simp only [List.foldl_cons]
    rw [ih (fun r hr => hp r (List.mem_cons_of_mem q hr)) (dinsert cache q (f q))]
    exact mlookup_dinsert_other cache q (f q) p (Ne.symm (hp q (List.mem_cons_self q qs)))

theorem mlookup_foldl_dinsert_mem (f : String → Nat) (p : String) :
    ∀ l : List String, l.Nodup → p ∈ l →
      ∀ cache, mlookup (l.foldl (fun c q => dinsert c q (f q)) cache) p = some (f p) := by
  intro l
  induction l with
  | nil => intro _ hp; cases hp
  | cons q qs ih =>
    intro hnd hp cache
    simp only [List.foldl_cons]
    rcases List.mem_cons.mp hp with rfl | hp'
    · have hq : ∀ r ∈ qs, r ≠ p := by
        intro r hr hrp
        exact (List.nodup_cons.mp hnd).1 (hrp ▸ hr)
      rw [mlookup_foldl_dinsert_of_ne f p qs hq (dinsert cache p (f p))]
      exact mlookup_dinsert_self cache p (f p)
    · exact ih (List.nodup_cons.mp hnd).2 hp' (dinsert cache q (f q))

-- ---------------------------------------------------------------------------
-- Lemmas: retry loop
-- ---------------------------------------------------------------------------

theorem fetchLoop_succ_success {oc : Nat → FetchOutcome} {attempt d : Nat}
    (h : oc attempt = .success d) (fuel : Nat) :
    fetchLoop oc attempt (fuel + 1) = (d, attempt + 1, []) := by
  simp [fetchLoop, h]

theorem fetchLoop_succ_other {oc : Nat → FetchOutcome} {attempt : Nat}
    (h : oc attempt = .otherStatus) (fuel : Nat) :
    fetchLoop oc attempt (fuel + 1) = (0, attempt + 1, []) := by
  simp [fetchLoop, h]

theorem fetchLoop_succ_rate {oc : Nat → FetchOutcome} {attempt : Nat}
    (h : oc attempt = .rateLimited) (fuel : Nat) :
    fetchLoop oc attempt (fuel + 1) =
      ((fetchLoop oc (attempt + 1) fuel).1, (fetchLoop oc (attempt + 1) fuel).2.1,
        (BACKOFF_BASE ^ attempt * (1/2)) :: (fetchLoop oc (attempt + 1) fuel).2.2) := by
  simp [fetchLoop, h]

theorem fetchLoop_succ_exc {oc : Nat → FetchOutcome} {attempt : Nat}
    (h : oc attempt = .transportExc) (fuel : Nat) :
    fetchLoop oc attempt (fuel + 1) =
      ((fetchLoop oc (attempt + 1) fuel).1, (fetchLoop oc (attempt + 1) fuel).2.1,
        (BACKOFF_BASE ^ attempt * (3/10)) :: (fetchLoop oc (attempt + 1) fuel).2.2) := by
  simp [fetchLoop, h]

theorem fetchLoop_attempts_le (oc : Nat → FetchOutcome) :
    ∀ fuel attempt, (fetchLoop oc attempt fuel).2.1 ≤ attempt + fuel := by
  intro fuel
  induction fuel with
  | zero => intro attempt; simp [fetchLoop]
  | succ n ih =>
    intro attempt
    cases h : oc attempt with
    | success d => rw [fetchLoop_succ_success h]; show attempt + 1 ≤ _; omega
    | rateLimited =>
      rw [fetchLoop_succ_rate h]
      have := ih (attempt + 1)
      simpa using le_trans this (by omega)
    | otherStatus => rw [fetchLoop_succ_other h]; show attempt + 1 ≤ _; omega
    | transportExc =>
      rw [fetchLoop_succ_exc h]
      have := ih (attempt + 1)
      simpa using le_trans this (by omega)

theorem fetchLoop_all_retryable (oc : Nat → FetchOutcome) :
    ∀ fuel attempt, (∀ i, attempt ≤ i → i < attempt + fuel → isRetryableB (oc i) = true) →
      (fetchLoop oc attempt fuel).1 = 0 ∧ (fetchLoop oc attempt fuel).2.1 = attempt + fuel := by
  intro fuel
  induction fuel with
  | zero => intro attempt _; simp [fetchLoop]
  | succ n ih =>
    intro attempt hall
    have hcur : isRetryableB (oc attempt) = true :=
      hall attempt (le_refl _) (by omega)
    have hrest : ∀ i, attempt + 1 ≤ i → i < attempt + 1 + n → isRetryableB (oc i) = true :=
      fun i h1 h2 => hall i (by omega) (by omega)
    cases h : oc attempt with
    | success d => rw [h] at hcur; simp [isRetryableB] at hcur
    | otherStatus => rw [h] at hcur; simp [isRetryableB] at hcur
    | rateLimited =>
      rw [fetchLoop_succ_rate h]
      have := ih (attempt + 1) hrest
      exact ⟨this.1, by rw [this.2]; omega⟩
    | transportExc =>
      rw [fetchLoop_succ_exc h]
      have := ih (attempt + 1) hrest
      exact ⟨this.1, by rw [this.2]; omega⟩

theorem fetch_once_all_retryable (oc : Nat → FetchOutcome)
    (h : ∀ i, i ≤ MAX_RETRIES → isRetryableB (oc i) = true) :
    (fetch_download_count_once oc).1 = 0 ∧ (fetch_download_count_once oc).2.1 = 3 := by
  have := fetchLoop_all_retryable oc (MAX_RETRIES + 1) 0
    (fun i h1 h2 => h i (by simp only [MAX_RETRIES] at h2 ⊢; omega))
  simpa [fetch_download_count_once, MAX_RETRIES] using this

-- ---------------------------------------------------------------------------
-- Lemmas: fetch_downloads_parallel
-- ---------------------------------------------------------------------------

theorem mlookup_map_pair (f : String → Nat) (l : List String) (x : String) :
    mlookup (l.map (fun p => (p, f p))) x = if x ∈ l then some (f x) else none := by
  induction l with
  | nil => simp [mlookup, List.find?]
  | cons y ys ih =>
    simp only [List.map_cons]
    unfold mlookup at ih ⊢
    cases hyx : (y == x) with
    | true =>
      have : y = x := by simpa using hyx
      simp only [List.find?, hyx]
      simp [this]
    | false =>
      have hne : y ≠ x := by simpa using hyx
      simp only [List.find?, hyx]
      rw [ih]
      by_cases hx : x ∈ ys
      · rw [if_pos hx, if_pos (List.mem_cons_of_mem y hx)]
      · rw [if_neg hx, if_neg ?_]
        intro hmem
        rcases List.mem_cons.mp hmem with h | h
        · exact hne h.symm
        · exact hx h

theorem truncOf_nodup {pkgs : List String} (h : pkgs.Nodup) (limit : Nat) :
    (truncOf pkgs limit).Nodup := by
  unfold truncOf
  split
  · exact List.Nodup.sublist (List.take_sublist _ _) h
  · exact h

theorem mem_to_fetch_none {cache : List (String × Nat)} {l : List String} {q : String}
    (h : q ∈ l.filter (fun p => (mlookup cache p).isNone)) : mlookup cache q = none := by
  have := (List.mem_filter.mp h).2
  simpa [Option.isNone_iff_eq_none] using this

theorem fetch_parallel_fetched_miss (pkgs : List String) (cache : List (String × Nat))
    (oc : String → Nat → FetchOutcome) (limit : Nat) :
    ∀ q ∈ (fetch_downloads_parallel pkgs cache oc limit).2.2, mlookup cache q = none := by
  simp only [fetch_downloads_parallel]
  split
  · intro q hq; cases hq
  · intro q hq; exact mem_to_fetch_none hq

theorem fetch_parallel_cache_preserved (pkgs : List String) (cache : List (String × Nat))
    (oc : String → Nat → FetchOutcome) (limit : Nat) (p : String) (v : Nat)
    (h : mlookup cache p = some v) :
    mlookup (fetch_downloads_parallel pkgs cache oc limit).2.1 p = some v := by
  simp only [fetch_downloads_parallel]
  split
  · exact h
  · refine (mlookup_foldl_dinsert_of_ne _ p _ ?_ cache).trans h
    intro q hq hqp
    have := mem_to_fetch_none hq
    rw [hqp, h] at this
    cases this

theorem fetch_parallel_cache_zero (pkgs : List String) (cache : List (String × Nat))
    (oc : String → Nat → FetchOutcome) (limit : Nat) (p : String)
    (hnd : pkgs.Nodup) (hp : p ∈ truncOf pkgs limit) (hmiss : mlookup cache p = none)
    (hfail : ∀ i, i ≤ MAX_RETRIES → isRetryableB (oc p i) = true) :
    mlookup (fetch_downloads_parallel pkgs cache oc limit).2.1 p = some 0 := by
  have hpf : p ∈ (truncOf pkgs limit).filter (fun q => (mlookup cache q).isNone) :=
    List.mem_filter.mpr ⟨hp, by simp [hmiss]⟩
  simp only [fetch_downloads_parallel]
  split
  case isTrue hemp =>
    rw [List.isEmpty_iff.mp hemp] at hpf
    cases hpf
  case isFalse hemp =>
    have hnd' : ((truncOf pkgs limit).filter (fun q => (mlookup cache q).isNone)).Nodup :=
      (truncOf_nodup hnd limit).filter _
    rw [mlookup_foldl_dinsert_mem _ p _ hnd' hpf cache]
    have := fetch_once_all_retryable (oc p) hfail
    rw [this.1]

theorem fetch_parallel_result_lookup (pkgs : List String) (cache : List (String × Nat))
    (oc : String → Nat → FetchOutcome) (limit : Nat) (p : String) :
    mlookup (fetch_downloads_parallel pkgs cache oc limit).1 p =
      if p ∈ truncOf pkgs limit
      then some ((mlookup (fetch_downloads_parallel pkgs cache oc limit).2.1 p).getD 0)
      else none := by
  simp only [fetch_downloads_parallel]
  split <;> rw [mlookup_map_pair]

-- ---------------------------------------------------------------------------
-- Claim theorems: C5, C7, C2, C8
-- ---------------------------------------------------------------------------

/-- C5: a single package lookup makes at most 3 attempts (2 retries); on a
transport exception or an HTTP 429 it sleeps per the backoff schedule and
retries; on any other non-success response it returns 0 immediately without
retrying; a lookup that fails twice then succeeds on the third attempt
returns the successful value; a lookup that exhausts all attempts returns 0,
and that 0 is written into the durable cache before the service returns. -/
theorem C5_retry_policy :
    (∀ oc : Nat → FetchOutcome, (fetch_download_count_once oc).2.1 ≤ MAX_RETRIES + 1)
    ∧ (∀ oc : Nat → FetchOutcome, oc 0 = FetchOutcome.otherStatus →
        fetch_download_count_once oc = (0, 1, []))
    ∧ (∀ (oc : Nat → FetchOutcome) (d : Nat), isRetryableB (oc 0) = true →
        isRetryableB (oc 1) = true → oc 2 = FetchOutcome.success d →
        fetch_download_count_once oc = (d, 3, [retrySleep (oc 0) 0, retrySleep (oc 1) 1]))
    ∧ (∀ oc : Nat → FetchOutcome, (∀ i, i ≤ MAX_RETRIES → isRetryableB (oc i) = true) →
        (fetch_download_count_once oc).1 = 0 ∧ (fetch_download_count_once oc).2.1 = 3)
    ∧ (∀ (pkgs : List String) (cache : List (String × Nat)) (oc : String → Nat → FetchOutcome)
        (limit : Nat) (p : String), pkgs.Nodup → p ∈ truncOf pkgs limit →
        mlookup cache p = none → (∀ i, i ≤ MAX_RETRIES → isRetryableB (oc p i) = true) →
        mlookup (fetch_downloads_parallel pkgs cache oc limit).2.1 p = some 0) := by
  refine ⟨?_, ?_, ?_, ?_, ?_⟩
  · intro oc
    have := fetchLoop_attempts_le oc (MAX_RETRIES + 1) 0
    simpa [fetch_download_count_once] using this
  · intro oc h
    unfold fetch_download_count_once
    rw [fetchLoop_succ_other h]
  · intro oc d h0 h1 h2
    cases ho0 : oc 0 <;> rw [ho0] at h0 <;> try simp [isRetryableB] at h0
    all_goals cases ho1 : oc 1 <;> rw [ho1] at h1 <;> try simp [isRetryableB] at h1
    all_goals
      simp [fetch_download_count_once, MAX_RETRIES, fetchLoop, ho0, ho1, h2, retrySleep]
  · intro oc h
    exact fetch_once_all_retryable oc h
  · intro pkgs cache oc limit p hnd hp hmiss hfail
    exact fetch_parallel_cache_zero pkgs cache oc limit p hnd hp hmiss hfail

theorem C5_witness :
    mlookup (fetch_downloads_parallel ["a"] [] (fun _ _ => FetchOutcome.transportExc) 200).2.1 "a"
      = some 0 :=
  C5_retry_policy.2.2.2.2 ["a"] [] (fun _ _ => FetchOutcome.transportExc) 200 "a"
    (by decide) (by decide) rfl (fun i _ => rfl)

/-- C7: a package key already present in the cache never triggers a network
lookup (only cache misses are dispatched), and once present its value is
preserved by the run, so subsequent runs never re-fetch it either. -/
theorem C7_cache_idempotent (pkgs : List String) (cache : List (String × Nat))
    (oc : String → Nat → FetchOutcome) (limit : Nat) (p : String) (v : Nat)
    (h : mlookup cache p = some v) :
    p ∉ (fetch_downloads_parallel pkgs cache oc limit).2.2
    ∧ mlookup (fetch_downloads_parallel pkgs cache oc limit).2.1 p = some v
    ∧ ∀ (pkgs2 : List String) (oc2 : String → Nat → FetchOutcome) (limit2 : Nat),
        p ∉ (fetch_downloads_parallel pkgs2
              (fetch_downloads_parallel pkgs cache oc limit).2.1 oc2 limit2).2.2 := by
  have hnf : ∀ (pk : List String) (ca : List (String × Nat)) (o : String → Nat → FetchOutcome)
      (li : Nat), mlookup ca p = some v → p ∉ (fetch_downloads_parallel pk ca o li).2.2 := by
    intro pk ca o li hca hmem
    have := fetch_parallel_fetched_miss pk ca o li p hmem
    rw [hca] at this
    cases this
  refine ⟨hnf pkgs cache oc limit h,
    fetch_parallel_cache_preserved pkgs cache oc limit p v h, ?_⟩
  intro pkgs2 oc2 limit2
  exact hnf pkgs2 _ oc2 limit2 (fetch_parallel_cache_preserved pkgs cache oc limit p v h)

theorem C7_witness :
    "a" ∉ (fetch_downloads_parallel ["a"] [("a", 7)] (fun _ _ => FetchOutcome.otherStatus) 200).2.2
    ∧ mlookup (fetch_downloads_parallel ["a"] [("a", 7)]
        (fun _ _ => FetchOutcome.otherStatus) 200).2.1 "a" = some 7 :=
  ⟨(C7_cache_idempotent ["a"] [("a", 7)] (fun _ _ => FetchOutcome.otherStatus) 200 "a" 7 rfl).1,
   (C7_cache_idempotent ["a"] [("a", 7)] (fun _ _ => FetchOutcome.otherStatus) 200 "a" 7 rfl).2.1⟩

/-- C2 counterexample: with two requested packages and the lookup cap at 1,
the returned mapping has no entry at all for the beyond-cap package "b" -
it does not resolve to 0 as the claim states. -/
theorem C2_counterexample :
    "b" ∈ ["a", "b"]
    ∧ mlookup (fetch_downloads_parallel ["a", "b"] []
        (fun _ _ => FetchOutcome.otherStatus) 1).1 "b" = none := by
  exact ⟨by decide, by decide⟩

/-- C2 (amended): the returned mapping has an entry exactly for every
requested package within the cap (the first N by input frequency rank);
a within-cap package that misses the cache and whose lookup exhausts all
attempts resolves to 0.  Packages beyond the cap are absent from the mapping
(the caller treats absence as 0 via fillna). -/
theorem C2_mapping (pkgs : List String) (cache : List (String × Nat))
    (oc : String → Nat → FetchOutcome) (limit : Nat) :
    (∀ p ∈ truncOf pkgs limit,
      (mlookup (fetch_downloads_parallel pkgs cache oc limit).1 p).isSome = true)
    ∧ (∀ p : String, (mlookup (fetch_downloads_parallel pkgs cache oc limit).1 p).isSome = true →
        p ∈ truncOf pkgs limit)
    ∧ (∀ p ∈ truncOf pkgs limit, pkgs.Nodup → mlookup cache p = none →
        (∀ i, i ≤ MAX_RETRIES → isRetryableB (oc p i) = true) →
        mlookup (fetch_downloads_parallel pkgs cache oc limit).1 p = some 0) := by
  refine ⟨?_, ?_, ?_⟩
  · intro p hp
    rw [fetch_parallel_result_lookup, if_pos hp]
    rfl
  · intro p h
    by_contra hmem
    rw [fetch_parallel_result_lookup, if_neg hmem] at h
    simp at h
  · intro p hp hnd hmiss hfail
    rw [fetch_parallel_result_lookup, if_pos hp,
      fetch_parallel_cache_zero pkgs cache oc limit p hnd hp hmiss hfail]
    rfl

theorem C2_witness :
    mlookup (fetch_downloads_parallel ["a"] [] (fun _ _ => FetchOutcome.transportExc) 200).1 "a"
      = some 0 :=
  (C2_mapping ["a"] [] (fun _ _ => FetchOutcome.transportExc) 200).2.2 "a"
    (by decide) (by decide) rfl (fun i _ => rfl)

/-- C8: for every non-negative, not-all-zero weight triple, the weights main
actually uses are the supplied ones rescaled proportionally, and they sum to
1 within the floating-point tolerance of the isclose guard. -/
theorem C8_weight_rescale (ws we wx : ℚ) (h1 : 0 ≤ ws) (h2 : 0 ≤ we) (h3 : 0 ≤ wx)
    (h0 : ¬(ws = 0 ∧ we = 0 ∧ wx = 0)) :
    |(normalize_weights ws we wx).1 + (normalize_weights ws we wx).2.1 +
        (normalize_weights ws we wx).2.2 - 1| ≤ 1/1000000000 * max (ws + we + wx) 1
    ∧ ∃ k : ℚ, 0 < k ∧ (normalize_weights ws we wx).1 = k * ws
        ∧ (normalize_weights ws we wx).2.1 = k * we
        ∧ (normalize_weights ws we wx).2.2 = k * wx := by
  have htotne : ws + we + wx ≠ 0 := by
    intro hsum
    exact h0 ⟨by linarith, by linarith, by linarith⟩
  have htot : 0 < ws + we + wx := lt_of_le_of_ne (by linarith) (Ne.symm htotne)
  have hrhs : 0 ≤ 1/1000000000 * max (ws + we + wx) 1 := by
    have : (1:ℚ) ≤ max (ws + we + wx) 1 := le_max_right _ _
    nlinarith
  simp only [normalize_weights]
  split
  case isTrue h =>
    constructor
    · have hsum : ws / (ws + we + wx) + we / (ws + we + wx) + wx / (ws + we + wx) = 1 := by
        field_simp
      rw [hsum]
      simp only [sub_self, abs_zero]
      exact hrhs
    · exact ⟨1 / (ws + we + wx), by positivity, by ring, by ring, by ring⟩
  case isFalse h =>
    have hc : iscloseB (ws + we + wx) 1 = true := by
      cases hic : iscloseB (ws + we + wx) 1 with
      | false => rw [hic] at h; simp at h
      | true => rfl
    have hle : |ws + we + wx - 1| ≤ 1/1000000000 * max |ws + we + wx| |(1:ℚ)| := by
      simpa [iscloseB] using hc
    constructor
    · have habs : |ws + we + wx| = ws + we + wx := abs_of_nonneg (le_of_lt htot)
      rw [habs] at hle
      simpa using hle
    · exact ⟨1, one_pos, (one_mul ws).symm, (one_mul we).symm, (one_mul wx).symm⟩

theorem C8_witness :
    |(normalize_weights 1 1 0).1 + (normalize_weights 1 1 0).2.1 +
        (normalize_weights 1 1 0).2.2 - 1| ≤ 1/1000000000 * max ((1:ℚ) + 1 + 0) 1 :=
  (C8_weight_rescale 1 1 0 (by norm_num) (by norm_num) (by norm_num) (by norm_num)).1

-- ---------------------------------------------------------------------------
-- Lemmas: charListLt is a strict linear order, agreeing with String <
-- ---------------------------------------------------------------------------

theorem charListLt_cons (a b : Char) (as bs : List Char) :
    charListLt (a :: as) (b :: bs) =
      if a < b then true else if b < a then false else charListLt as bs := rfl

theorem charListLt_iff_lt : ∀ as bs : List Char, charListLt as bs = true ↔ List.lt as bs := by
  intro as
  induction as with
  | nil =>
    intro bs
    cases bs with
    | nil =>
      constructor
      · intro h; cases h
      · intro h; cases h
    | cons b bs =>
      constructor
      · intro _; exact List.lt.nil b bs
      · intro _; rfl
  | cons a as ih =>
    intro bs
    cases bs with
    | nil =>
      constructor
      · intro h; cases h
      · intro h; cases h
    | cons b bs =>
      rw [charListLt_cons]
      by_cases hab : a < b
      · rw [if_pos hab]
        exact ⟨fun _ => List.lt.head as bs hab, fun _ => rfl⟩
      · rw [if_neg hab]
        by_cases hba : b < a
        · rw [if_pos hba]
          constructor
          · intro h; cases h
          · intro h
            cases h with
            | head _ _ h' => exact absurd h' hab
            | tail h1 h2 _ => exact absurd hba h2
        · rw [if_neg hba]
          rw [ih bs]
          constructor
          · intro h; exact List.lt.tail hab hba h
          · intro h
            cases h with
            | head _ _ h' => exact absurd h' hab
            | tail _ _ h' => exact h'

-- ---------------------------------------------------------------------------
-- Claim theorems: C9, C10, C6
-- ---------------------------------------------------------------------------

theorem score_rows_e_ok (env : Env) (rows : List RawRecord)
    (h : ∀ r ∈ rows, ∀ k ∈ (["package", "type", "severity", "summary", "published"] : List String),
      (rget r k).isSome = true ∧ (rget r k).getD "" ≠ "") :
    isOkE (score_rows_e env rows) = true := by
  simp only [score_rows_e]
  by_cases hemp : (rows.filter (fun r => upperStr ((rget r "type").getD "") == "GHSA")).isEmpty = true
  · rw [if_pos hemp]
    rfl
  · rw [if_neg hemp]
    obtain ⟨r0, hr0⟩ :
        ∃ r0, r0 ∈ rows.filter (fun r => upperStr ((rget r "type").getD "") == "GHSA") := by
      cases hg : rows.filter (fun r => upperStr ((rget r "type").getD "") == "GHSA") with
      | nil => rw [hg] at hemp; exact absurd rfl hemp
      | cons a l => exact ⟨a, hg ▸ List.mem_cons_self a l⟩
    have hr0rows : r0 ∈ rows := List.mem_of_mem_filter hr0
    have hsome : ∀ k ∈ (["package", "type", "severity", "summary", "published"] : List String),
        (rget r0 k).isNone = false := by
      intro k hk
      have := (h r0 hr0rows k hk).1
      cases hg : rget r0 k with
      | none => rw [hg] at this; cases this
      | some v => rfl
    have hno : ∀ k, k ∈ (["package", "type", "severity", "summary", "published"] : List String) →
        ¬ ((rows.filter (fun r => upperStr ((rget r "type").getD "") == "GHSA")).all
            (fun r => (rget r k).isNone) = true) := by
      intro k hk hall
      have := List.all_eq_true.mp hall r0 hr0
      rw [hsome k hk] at this
      cases this
    rw [if_neg (hno "summary" (by decide)), if_neg (hno "severity" (by decide)),
      if_neg (hno "package" (by decide))]
    rfl

theorem normalize_weights_e_ok (ws we wx : ℚ) (h1 : 0 ≤ ws) (h2 : 0 ≤ we) (h3 : 0 ≤ wx)
    (h0 : ¬(ws = 0 ∧ we = 0 ∧ wx = 0)) :
    ∃ w, normalize_weights_e ws we wx = Except.ok w := by
  have htot : ws + we + wx ≠ 0 := by
    intro hsum
    exact h0 ⟨by linarith, by linarith, by linarith⟩
  simp only [normalize_weights_e, if_neg htot]
  split
  · exact ⟨_, rfl⟩
  · exact ⟨_, rfl⟩

/-- C9 counterexample: the all-zero weight triple is non-negative, and the
fixture row is well-formed, yet main's weight-normalization prologue divides
by the zero total (isclose(0, 1) is false) and the pipeline aborts with
ZeroDivisionError instead of producing a ranked sequence. -/
theorem C9_counterexample :
    (∀ r ∈ [raw_w], ∀ k ∈ (["package", "type", "severity", "summary", "published"] : List String),
      (rget r k).isSome = true ∧ (rget r k).getD "" ≠ "")
    ∧ main_e 0 0 0 envW [raw_w] = Except.error "ZeroDivisionError: float division by zero" := by
  refine ⟨by decide, ?_⟩
  have hic : iscloseB ((0:ℚ) + 0 + 0) 1 = false := by
    simp only [iscloseB, decide_eq_false_iff_not]
    intro hle
    norm_num at hle
  have hnw : normalize_weights_e 0 0 0 =
      Except.error "ZeroDivisionError: float division by zero" := by
    simp only [normalize_weights_e]
    rw [if_pos (by rw [hic]; rfl), if_pos (by norm_num)]
  unfold main_e
  rw [hnw]

/-- C9 (amended): on well-formed advisory records (all five required columns
present with non-empty values) and any non-negative weight triple that is
not all zero, the pipeline - main's weight normalization followed by the
scoring core - never raises: every failure point of the instrumented
pipeline is avoided and a (possibly empty) ranked sequence is produced.
With the all-zero triple main's rescale divides by zero and aborts, the one
uncovered case. -/
theorem C9_no_exceptions (ws we wx : ℚ) (env : Env) (rows : List RawRecord)
    (h : ∀ r ∈ rows, ∀ k ∈ (["package", "type", "severity", "summary", "published"] : List String),
      (rget r k).isSome = true ∧ (rget r k).getD "" ≠ "")
    (h1 : 0 ≤ ws) (h2 : 0 ≤ we) (h3 : 0 ≤ wx) (h0 : ¬(ws = 0 ∧ we = 0 ∧ wx = 0)) :
    isOkE (main_e ws we wx env rows) = true := by
  obtain ⟨w, hw⟩ := normalize_weights_e_ok ws we wx h1 h2 h3 h0
  unfold main_e
  rw [hw]
  exact score_rows_e_ok _ rows h

theorem C9_witness : isOkE (main_e W_SEV W_EXPLOIT W_EXPOSURE envW [raw_w]) = true :=
  C9_no_exceptions W_SEV W_EXPLOIT W_EXPOSURE envW [raw_w] (by decide)
    (by norm_num [W_SEV]) (by norm_num [W_EXPLOIT]) (by norm_num [W_EXPOSURE])
    (by norm_num [W_SEV])

/-- C10: when no severity field of a non-empty GHSA batch parses, the median
guard falls back to the constant 5.5 (the MODERATE value) and every row's
severity is back-filled with it. -/
theorem C10_backfill (env : Env) (rows : List Record)
    (_hne : ghsaOf rows ≠ [])
    (hall : ∀ r ∈ ghsaOf rows, parse_severity_to_cvss r.severity = none) :
    ∀ row ∈ score_rows_df env rows, row.cvss = 11/2 := by
  intro row hrow
  obtain ⟨r, hr, rfl⟩ := List.mem_map.mp hrow
  have hmed : batchMedian rows = 11/2 := by
    have hres : (ghsaOf rows).filterMap (fun r => parse_severity_to_cvss r.severity) = [] :=
      List.filterMap_eq_nil_iff.mpr hall
    simp only [batchMedian, hres]
    rfl
  show (mkScored env rows r).cvss = 11/2
  simp only [mkScored, cvssOf]
  rw [hall r hr, hmed]
  rfl

theorem C10_witness : (mkScored envW rows_c10 recBad).cvss = 11/2 :=
  C10_backfill envW rows_c10 (by decide) (by decide) (mkScored envW rows_c10 recBad)
    (List.mem_map_of_mem _ (by decide))

/-- C6: severity scoring uses a numeric value in [0,10] directly when the
stripped field parses; otherwise it falls back to uppercase substring
matching against the fixed ordinal table (in its insertion order LOW,
MODERATE, MEDIUM, HIGH, CRITICAL); unresolved severities are back-filled
with the batch median of the resolved ones, computed once per batch. -/
theorem C6_severity :
    (∀ (s : String) (v : ℚ), parseRat? (trimStr s) = some v → 0 ≤ v → v ≤ 10 →
      parse_severity_to_cvss s = some v)
    ∧ (∀ s : String, s ≠ "" → parseRat? (trimStr s) = none →
        parse_severity_to_cvss s = findTableMatch SEV_TO_CVSS (upperStr (trimStr s)))
    ∧ (∀ (s : String) (v : ℚ), s ≠ "" → parseRat? (trimStr s) = some v → ¬(0 ≤ v ∧ v ≤ 10) →
        parse_severity_to_cvss s = findTableMatch SEV_TO_CVSS (upperStr (trimStr s)))
    ∧ (∀ rows : List Record,
        (ghsaOf rows).filterMap (fun r => parse_severity_to_cvss r.severity) ≠ [] →
        batchMedian rows =
          nanmedian ((ghsaOf rows).filterMap (fun r => parse_severity_to_cvss r.severity)))
    ∧ (∀ (env : Env) (rows : List Record),
        (score_rows_df env rows).map (fun row => row.cvss) =
          (ghsaOf rows).map (fun r => (parse_severity_to_cvss r.severity).getD (batchMedian rows))) := by
  refine ⟨?_, ?_, ?_, ?_, ?_⟩
  · intro s v hp h0 h10
    have hs : s ≠ "" := by
      intro hnil
      rw [hnil] at hp
      cases hp
    simp only [parse_severity_to_cvss, if_neg hs, hp]
    rw [if_pos ⟨h0, h10⟩]
  · intro s hs hp
    simp only [parse_severity_to_cvss, if_neg hs, hp]
  · intro s v hs hp hout
    simp only [parse_severity_to_cvss, if_neg hs, hp]
    rw [if_neg hout]
  · intro rows hne
    simp only [batchMedian]
    rw [if_neg (by simpa [List.isEmpty_iff] using hne)]
  · intro env rows
    simp only [score_rows_df, List.map_map]
    apply List.map_congr_left
    intro r _
    simp only [Function.comp_apply, mkScored, cvssOf]

theorem C6_witness :
    parse_severity_to_cvss "7" = some 7
    ∧ parse_severity_to_cvss "Severity: HIGH" =
        findTableMatch SEV_TO_CVSS (upperStr (trimStr "Severity: HIGH")) :=
  ⟨C6_severity.1 "7" 7 (by decide) (by norm_num) (by norm_num),
   C6_severity.2.1 "Severity: HIGH" (by decide) (by decide)⟩

-- ---------------------------------------------------------------------------
-- Claim theorems: C3, C4
-- ---------------------------------------------------------------------------

theorem mem_score_rows_subset (env : Env) (rows : List Record) :
    ∀ row ∈ score_rows env rows, row ∈ score_rows_df env rows := by
  intro row hrow
  unfold score_rows at hrow
  split at hrow
  · cases hrow
  · have h1 : row ∈ groupbyFirst (rowSortDesc (score_rows_df env rows)) := mem_sortSt.mp hrow
    obtain ⟨p, hp, hfind⟩ := List.mem_filterMap.mp h1
    exact mem_sortSt.mp (List.mem_of_find?_eq_some hfind)

/-- C3: with non-negative weights summing to 1, every normalized axis value
and every composite score of the batch - and hence of the aggregated
output - lies in the unit interval. -/
theorem C3_scores_unit_interval (env : Env) (rows : List Record)
    (h1 : 0 ≤ env.w_sev) (h2 : 0 ≤ env.w_exploit) (h3 : 0 ≤ env.w_exposure)
    (hsum : env.w_sev + env.w_exploit + env.w_exposure = 1) :
    (∀ row ∈ score_rows_df env rows,
      (0 ≤ row.sev_norm ∧ row.sev_norm ≤ 1) ∧ (0 ≤ row.weap_norm ∧ row.weap_norm ≤ 1)
      ∧ (0 ≤ row.exp_norm ∧ row.exp_norm ≤ 1) ∧ (0 ≤ row.score ∧ row.score ≤ 1))
    ∧ (∀ row ∈ score_rows env rows,
      (0 ≤ row.sev_norm ∧ row.sev_norm ≤ 1) ∧ (0 ≤ row.weap_norm ∧ row.weap_norm ≤ 1)
      ∧ (0 ≤ row.exp_norm ∧ row.exp_norm ≤ 1) ∧ (0 ≤ row.score ∧ row.score ≤ 1)) := by
  have hdf : ∀ row ∈ score_rows_df env rows,
      (0 ≤ row.sev_norm ∧ row.sev_norm ≤ 1) ∧ (0 ≤ row.weap_norm ∧ row.weap_norm ≤ 1)
      ∧ (0 ≤ row.exp_norm ∧ row.exp_norm ≤ 1) ∧ (0 ≤ row.score ∧ row.score ≤ 1) := by
    intro row hrow
    obtain ⟨r, hr, rfl⟩ := List.mem_map.mp hrow
    have hs : cvssOf rows r ∈ cvssCol rows := List.mem_map_of_mem _ hr
    have hw : compute_weapon_score r.summary ∈ weapCol rows := List.mem_map_of_mem _ hr
    have he : dlogOf env rows r ∈ dlogCol env rows := List.mem_map_of_mem _ hr
    have b1 := minmaxOne_nonneg hs
    have b2 := minmaxOne_le_one hs
    have b3 := minmaxOne_nonneg hw
    have b4 := minmaxOne_le_one hw
    have b5 := minmaxOne_nonneg he
    have b6 := minmaxOne_le_one he
    simp only [mkScored]
    refine ⟨⟨b1, b2⟩, ⟨b3, b4⟩, ⟨b5, b6⟩, ?_, ?_⟩
    · have := mul_nonneg h1 b1
      have := mul_nonneg h2 b3
      have := mul_nonneg h3 b5
      linarith
    · have e1 : env.w_sev * minmaxOne (cvssCol rows) (cvssOf rows r) ≤ env.w_sev :=
        mul_le_of_le_one_right h1 b2
      have e2 : env.w_exploit * minmaxOne (weapCol rows) (compute_weapon_score r.summary)
          ≤ env.w_exploit := mul_le_of_le_one_right h2 b4
      have e3 : env.w_exposure * minmaxOne (dlogCol env rows) (dlogOf env rows r)
          ≤ env.w_exposure := mul_le_of_le_one_right h3 b6
      linarith
  exact ⟨hdf, fun row hrow => hdf row (mem_score_rows_subset env rows row hrow)⟩

theorem C3_witness :
    0 ≤ (mkScored envW rows_w recW).score ∧ (mkScored envW rows_w recW).score ≤ 1 :=
  ((C3_scores_unit_interval envW rows_w
      (by norm_num [envW, W_SEV]) (by norm_num [envW, W_EXPLOIT])
      (by norm_num [envW, W_EXPOSURE])
      (by norm_num [envW, W_SEV, W_EXPLOIT, W_EXPOSURE])).1
    (mkScored envW rows_w recW) (List.mem_map_of_mem _ (by decide))).2.2.2

/-- C4: min-max normalization is applied per axis across the whole batch as
(x - min)/(max - min); a zero-variance axis (in particular any axis of a
size-1 batch) normalizes to the constant 0. -/
theorem C4_minmax_degenerate (env : Env) (rows : List Record) :
    ((∀ a ∈ cvssCol rows, ∀ b ∈ cvssCol rows, a = b) →
      ∀ row ∈ score_rows_df env rows, row.sev_norm = 0)
    ∧ ((∀ a ∈ weapCol rows, ∀ b ∈ weapCol rows, a = b) →
      ∀ row ∈ score_rows_df env rows, row.weap_norm = 0)
    ∧ ((∀ a ∈ dlogCol env rows, ∀ b ∈ dlogCol env rows, a = b) →
      ∀ row ∈ score_rows_df env rows, row.exp_norm = 0)
    ∧ ((ghsaOf rows).length = 1 →
      ∀ row ∈ score_rows_df env rows,
        row.sev_norm = 0 ∧ row.weap_norm = 0 ∧ row.exp_norm = 0)
    ∧ (listMaxQ (cvssCol rows) ≠ listMinQ (cvssCol rows) →
      ∀ row ∈ score_rows_df env rows,
        row.sev_norm = (row.cvss - listMinQ (cvssCol rows)) /
          (listMaxQ (cvssCol rows) - listMinQ (cvssCol rows))) := by
  have hsev : (∀ a ∈ cvssCol rows, ∀ b ∈ cvssCol rows, a = b) →
      ∀ row ∈ score_rows_df env rows, row.sev_norm = 0 := by
    intro hc row hrow
    obtain ⟨r, hr, rfl⟩ := List.mem_map.mp hrow
    have hs : cvssOf rows r ∈ cvssCol rows := List.mem_map_of_mem _ hr
    simp only [mkScored]
    exact minmaxOne_const_zero hs hc
  have hweap : (∀ a ∈ weapCol rows, ∀ b ∈ weapCol rows, a = b) →
      ∀ row ∈ score_rows_df env rows, row.weap_norm = 0 := by
    intro hc row hrow
    obtain ⟨r, hr, rfl⟩ := List.mem_map.mp hrow
    have hw : compute_weapon_score r.summary ∈ weapCol rows := List.mem_map_of_mem _ hr
    simp only [mkScored]
    exact minmaxOne_const_zero hw hc
  have hexp : (∀ a ∈ dlogCol env rows, ∀ b ∈ dlogCol env rows, a = b) →
      ∀ row ∈ score_rows_df env rows, row.exp_norm = 0 := by
    intro hc row hrow
    obtain ⟨r, hr, rfl⟩ := List.mem_map.mp hrow
    have he : dlogOf env rows r ∈ dlogCol env rows := List.mem_map_of_mem _ hr
    simp only [mkScored]
    exact minmaxOne_const_zero he hc
  refine ⟨hsev, hweap, hexp, ?_, ?_⟩
  · intro hlen row hrow
    obtain ⟨r0, hr0⟩ := List.length_eq_one.mp hlen
    have hconst : ∀ f : Record → ℚ,
        ∀ a ∈ (ghsaOf rows).map f, ∀ b ∈ (ghsaOf rows).map f, a = b := by
      intro f a ha b hb
      rw [hr0] at ha hb
      simp only [List.map_cons, List.map_nil, List.mem_singleton] at ha hb
      rw [ha, hb]
    exact ⟨hsev (hconst _) row hrow, hweap (hconst _) row hrow, hexp (hconst _) row hrow⟩
  · intro hne row hrow
    obtain ⟨r, hr, rfl⟩ := List.mem_map.mp hrow
    simp only [mkScored]
    rw [minmaxOne, if_neg hne]

theorem C4_witness :
    (mkScored envW rows_w recW).sev_norm = 0 ∧ (mkScored envW rows_w recW).weap_norm = 0
    ∧ (mkScored envW rows_w recW).exp_norm = 0 :=
  (C4_minmax_degenerate envW rows_w).2.2.2.1 (by decide) (mkScored envW rows_w recW)
    (List.mem_map_of_mem _ (by decide))

-- ---------------------------------------------------------------------------
-- C1 counterexample: evaluating the pipeline on rows_c1
-- ---------------------------------------------------------------------------

theorem minmax_pair_same (x : ℚ) : minmaxOne [x, x] x = 0 := by
  simp [minmaxOne, listMinQ, listMaxQ]

theorem mkScored_recB : mkScored envW rows_c1 recB = rowB0 := by
  have hcol : cvssCol rows_c1 = [8, 8] := by decide
  have hw : weapCol rows_c1 = [0, 0] := by decide
  have hd : dlogCol envW rows_c1 = [0, 0] := by decide
  have hcv : cvssOf rows_c1 recB = 8 := by
    show (parse_severity_to_cvss recB.severity).getD (batchMedian rows_c1) = 8
    rw [show parse_severity_to_cvss recB.severity = some 8 from by decide]
    rfl
  have hws : compute_weapon_score recB.summary = 0 := by decide
  have hdl : dlOf envW rows_c1 recB = 0 := by decide
  have hdlog : dlogOf envW rows_c1 recB = 0 := by decide
  simp only [mkScored, hcol, hw, hd, hcv, hws, hdl, hdlog, minmax_pair_same, mul_zero, add_zero]
  rfl

theorem mkScored_recA : mkScored envW rows_c1 recA = rowA0 := by
  have hcol : cvssCol rows_c1 = [8, 8] := by decide
  have hw : weapCol rows_c1 = [0, 0] := by decide
  have hd : dlogCol envW rows_c1 = [0, 0] := by decide
  have hcv : cvssOf rows_c1 recA = 8 := by
    show (parse_severity_to_cvss recA.severity).getD (batchMedian rows_c1) = 8
    rw [show parse_severity_to_cvss recA.severity = some 8 from by decide]
    rfl
  have hws : compute_weapon_score recA.summary = 0 := by decide
  have hdl : dlOf envW rows_c1 recA = 0 := by decide
  have hdlog : dlogOf envW rows_c1 recA = 0 := by decide
  simp only [mkScored, hcol, hw, hd, hcv, hws, hdl, hdlog, minmax_pair_same, mul_zero, add_zero]
  rfl

theorem df_c1 : score_rows_df envW rows_c1 = [rowB0, rowA0] := by
  show (ghsaOf rows_c1).map (mkScored envW rows_c1) = [rowB0, rowA0]
  rw [show ghsaOf rows_c1 = [recB, recA] from by decide]
  rw [List.map_cons, List.map_cons, List.map_nil, mkScored_recB, mkScored_recA]

/-- C1 counterexample: the batch [recB, recA] (package "b" first, then "a",
otherwise identical) yields equal composite scores for both packages, yet
score_rows lists "a" before "b" - the alphabetical order produced by the
groupby step - while the claimed output (stable tie-break preserving
first-seen order among equal scores, claimOutput) lists "b" first. -/
theorem C1_counterexample :
    score_rows envW rows_c1 ≠ claimOutput (score_rows_df envW rows_c1)
    ∧ (score_rows envW rows_c1).map (fun r => r.package) = ["a", "b"]
    ∧ (claimOutput (score_rows_df envW rows_c1)).map (fun r => r.package) = ["b", "a"]
    ∧ (score_rows envW rows_c1).map (fun r => r.score) = [0, 0] := by
  have hout : score_rows envW rows_c1 = [rowA0, rowB0] := by
    unfold score_rows
    rw [if_neg (by decide : ¬(ghsaOf rows_c1).isEmpty = true)]
    rw [df_c1]
    decide
  have hclaim : claimOutput (score_rows_df envW rows_c1) = [rowB0, rowA0] := by
    rw [df_c1]
    decide
  refine ⟨?_, ?_, ?_, ?_⟩
  · rw [hout, hclaim]
    intro h
    have hmap := congrArg (fun l => l.map (fun r : ScoredRow => r.package)) h
    simp [rowA0, rowB0] at hmap
  · rw [hout]; decide
  · rw [hclaim]; decide
  · rw [hout]; decide

-- ---------------------------------------------------------------------------
-- C1 amended: structure of the aggregation
-- ---------------------------------------------------------------------------

theorem rowAfter_asymm : ∀ a b : ScoredRow, rowAfter a b = true → rowAfter b a = false := by
  intro a b h
  simp only [rowAfter, decide_eq_true_eq] at h
  simp only [rowAfter, decide_eq_false_iff_not]
  exact not_lt_of_lt h

theorem rowAfter_negtrans :
    ∀ a b c : ScoredRow, rowAfter a b = false → rowAfter b c = false → rowAfter a c = false := by
  intro a b c h1 h2
  simp only [rowAfter, decide_eq_false_iff_not] at h1 h2 ⊢
  intro hlt
  exact h1 (lt_of_lt_of_le hlt (le_of_not_lt h2))

theorem map_package_filterMap_find? (l : List ScoredRow) (ks : List String) :
    (ks.filterMap (fun p => l.find? (fun r => r.package == p))).map (fun r => r.package) =
      ks.filter (fun p => (l.find? (fun r => r.package == p)).isSome) := by
  induction ks with
  | nil => rfl
  | cons p ks ih =>
    cases hf : l.find? (fun r => r.package == p) with
    | none => simp [List.filterMap_cons, hf, List.filter_cons, ih]
    | some r =>
      have hpkg : r.package = p := by simpa using List.find?_some hf
      simp [List.filterMap_cons, hf, List.filter_cons, ih, hpkg]


theorem rowSortDesc_perm (l : List ScoredRow) : List.Perm (rowSortDesc l) l :=
  sortSt_perm rowAfter l

theorem rowSortDesc_sorted (l : List ScoredRow) :
    List.Pairwise (fun a b : ScoredRow => b.score ≤ a.score) (rowSortDesc l) := by
  refine (sorted_sortSt rowAfter rowAfter_asymm rowAfter_negtrans l).imp ?_
  intro a b hab
  simp only [rowAfter, decide_eq_false_iff_not] at hab
  exact le_of_not_lt hab

theorem agg_spec_any (s : List ScoredRow → List ScoredRow)
    (hperm : ∀ l, List.Perm (s l) l)
    (hsort : ∀ l, List.Pairwise (fun a b : ScoredRow => b.score ≤ a.score) (s l))
    (df : List ScoredRow) :
    ((s (groupbyFirst (s df))).map (fun r => r.package)).Nodup
    ∧ (∀ p : String, p ∈ (s (groupbyFirst (s df))).map (fun r => r.package) ↔
        p ∈ df.map (fun r => r.package))
    ∧ (∀ r ∈ s (groupbyFirst (s df)), r ∈ df ∧
        ∀ d ∈ df, d.package = r.package → d.score ≤ r.score)
    ∧ List.Pairwise (fun a b : ScoredRow => b.score ≤ a.score) (s (groupbyFirst (s df))) := by
  have hkeys_nodup :
      (sortSt strAfter (firstSeenDistinct ((s df).map (fun r => r.package)))).Nodup :=
    (sortSt_perm strAfter _).symm.nodup (nodup_firstSeenDistinct _)
  have hgb_pkg : (groupbyFirst (s df)).map (fun r => r.package) =
      (sortSt strAfter (firstSeenDistinct ((s df).map (fun r => r.package)))).filter
        (fun p => ((s df).find? (fun r => r.package == p)).isSome) :=
    map_package_filterMap_find? (s df) _
  have hgb_nodup : ((groupbyFirst (s df)).map (fun r => r.package)).Nodup := by
    rw [hgb_pkg]
    exact hkeys_nodup.filter _
  refine ⟨?_, ?_, ?_, ?_⟩
  · exact ((hperm (groupbyFirst (s df))).map (fun r => r.package)).symm.nodup hgb_nodup
  · intro p
    constructor
    · intro hp
      have hp1 : p ∈ (groupbyFirst (s df)).map (fun r => r.package) :=
        ((hperm (groupbyFirst (s df))).map (fun r => r.package)).mem_iff.mp hp
      rw [hgb_pkg] at hp1
      have hp3 : p ∈ firstSeenDistinct ((s df).map (fun r => r.package)) :=
        mem_sortSt.mp (List.mem_of_mem_filter hp1)
      have hp4 : p ∈ (s df).map (fun r => r.package) := mem_firstSeenDistinct.mp hp3
      exact ((hperm df).map (fun r => r.package)).mem_iff.mp hp4
    · intro hp
      have hp4 : p ∈ (s df).map (fun r => r.package) :=
        ((hperm df).map (fun r => r.package)).mem_iff.mpr hp
      have hp2 : p ∈ sortSt strAfter (firstSeenDistinct ((s df).map (fun r => r.package))) :=
        mem_sortSt.mpr (mem_firstSeenDistinct.mpr hp4)
      have hsome : ((s df).find? (fun r => r.package == p)).isSome = true := by
        obtain ⟨r, hr, hrp⟩ := List.mem_map.mp hp4
        cases hf : (s df).find? (fun r => r.package == p) with
        | some _ => rfl
        | none =>
          have := List.find?_eq_none.mp hf r hr
          simp [hrp] at this
      have hp1 : p ∈ (groupbyFirst (s df)).map (fun r => r.package) := by
        rw [hgb_pkg]
        exact List.mem_filter.mpr ⟨hp2, hsome⟩
      exact ((hperm (groupbyFirst (s df))).map (fun r => r.package)).mem_iff.mpr hp1
  · intro r hr
    have hgb : r ∈ groupbyFirst (s df) := (hperm (groupbyFirst (s df))).mem_iff.mp hr
    obtain ⟨p, hpmem, hfind⟩ := List.mem_filterMap.mp hgb
    have hpkg : r.package = p := by simpa using List.find?_some hfind
    obtain ⟨u, w, hsplit, hu⟩ := find?_split hfind
    have hrdf : r ∈ df := by
      refine (hperm df).mem_iff.mp ?_
      rw [hsplit]
      exact List.mem_append.mpr (Or.inr (List.mem_cons_self r w))
    refine ⟨hrdf, ?_⟩
    intro d hd hdp
    have hd' : d ∈ s df := (hperm df).mem_iff.mpr hd
    have hsorted := hsort df
    rw [hsplit] at hd' hsorted
    rcases List.mem_append.mp hd' with hdu | hdw
    · have := hu d hdu
      rw [hdp, hpkg] at this
      simp at this
    · rcases List.mem_cons.mp hdw with rfl | hdw'
      · exact le_refl _
      · exact (List.pairwise_cons.mp (List.pairwise_append.mp hsorted).2.1).1 d hdw'
  · exact hsort (groupbyFirst (s df))

/-- C1 (amended): for every implementation of the score sort - pandas'
default quicksort is documented non-stable, so any function returning a
descending-by-score permutation of its input is a possible behaviour - the
aggregated output contains exactly one row per distinct package of the
scored batch; the row kept for a package is one of that package's
highest-composite-score rows (which one, among equal scores, is
implementation-defined); and the output is sorted descending by score, with
no specified order among equal scores.  score_rows itself is the
rowSortDesc instance of score_rows_with. -/
theorem C1_amended (s : List ScoredRow → List ScoredRow)
    (hperm : ∀ l, List.Perm (s l) l)
    (hsort : ∀ l, List.Pairwise (fun a b : ScoredRow => b.score ≤ a.score) (s l))
    (env : Env) (rows : List Record) :
    ((score_rows_with s env rows).map (fun r => r.package)).Nodup
    ∧ (∀ p : String, p ∈ (score_rows_with s env rows).map (fun r => r.package) ↔
        p ∈ (score_rows_df env rows).map (fun r => r.package))
    ∧ (∀ r ∈ score_rows_with s env rows, r ∈ score_rows_df env rows ∧
        ∀ d ∈ score_rows_df env rows, d.package = r.package → d.score ≤ r.score)
    ∧ List.Pairwise (fun a b : ScoredRow => b.score ≤ a.score) (score_rows_with s env rows)
    ∧ score_rows env rows = score_rows_with rowSortDesc env rows := by
  by_cases hemp : (ghsaOf rows).isEmpty = true
  · have hrows : score_rows_with s env rows = [] := by
      unfold score_rows_with
      rw [if_pos hemp]
    have hdf : score_rows_df env rows = [] := by
      unfold score_rows_df
      rw [List.isEmpty_iff.mp hemp]
      rfl
    rw [hrows, hdf]
    exact ⟨by simp, by simp, by simp, by simp, rfl⟩
  · have hrows : score_rows_with s env rows =
        s (groupbyFirst (s (score_rows_df env rows))) := by
      unfold score_rows_with
      rw [if_neg hemp]
    rw [hrows]
    obtain ⟨h1, h2, h3, h4⟩ := agg_spec_any s hperm hsort (score_rows_df env rows)
    exact ⟨h1, h2, h3, h4, rfl⟩

theorem C1_witness :
    ((score_rows_with rowSortDesc envW rows_c1).map (fun r => r.package)).Nodup :=
  (C1_amended rowSortDesc rowSortDesc_perm rowSortDesc_sorted envW rows_c1).1
